import Mathlib

/-!
Verification development for the Aura repository's AI response gateway.

The definitions below are shallow embeddings of the TypeScript source:
  * `jsonParse` models the behaviour of JavaScript `JSON.parse` (ASCII/BMP
    model: a `\u` escape becomes the corresponding code point; duplicate
    object keys keep the first position and the last value, as JS objects do);
  * `stripFences` models `raw.replace(/```json|```/g, '')`;
  * `trimJS` models `String.prototype.trim` (ASCII whitespace model);
  * `jsToUpper` models `String.prototype.toUpperCase` (ASCII model);
  * `serverContents` / `aiContents` model the Gemini conversation reshaping
    loops of `backend/server.ts` and `src/ai.ts`;
  * `geminiLoop` models the model-fallback loop of `getGeminiResponse`
    in `backend/server.ts`;
  * `parseAIResponse` models `parseAIResponse` of `src/ai.ts`;
  * `smartParse` models the "SMART PARSER" block of the unnamed server
    revision (src/unnamed/part_000);
  * `serverParse`, `uppercaseStep` and `serverChat` model the
    `app.post('/api/chat')` handler of `backend/server.ts`, with the
    network and database collaborators abstracted as oracles and the
    performed network calls recorded as a trace.
-/

namespace Aura

/-- A JavaScript value produced by `JSON.parse`.  Numbers keep their source
lexeme: none of the verified properties inspects numeric magnitude beyond
zero-ness, which is decidable from the lexeme. -/
inductive JSValue where
  | null
  | bool (b : Bool)
  | num (lexeme : String)
  | str (s : String)
  | arr (elems : List JSValue)
  | obj (fields : List (String × JSValue))

/- ### Character helpers -/

def isDigitCh (c : Char) : Bool := '0' ≤ c && c ≤ '9'

def isHexCh (c : Char) : Bool :=
  isDigitCh c || ('a' ≤ c && c ≤ 'f') || ('A' ≤ c && c ≤ 'F')

def hexVal (c : Char) : Nat :=
  if isDigitCh c then c.toNat - 48
  else if 'a' ≤ c && c ≤ 'f' then c.toNat - 87
  else c.toNat - 55

/-- JSON insignificant whitespace. -/
def jsonWsCh (c : Char) : Bool := c = ' ' || c = '\t' || c = '\n' || c = '\r'

def skipWs : List Char → List Char
  | [] => []
  | c :: cs => if jsonWsCh c then skipWs cs else c :: cs

/-- Does `p` occur as a leading run of `cs`? -/
def startsWithChars : List Char → List Char → Bool
  | [], _ => true
  | _ :: _, [] => false
  | p :: ps, c :: cs => p = c && startsWithChars ps cs

/- ### JS string helpers -/

/-- ASCII model of the whitespace class removed by `String.prototype.trim`. -/
def jsTrimCh (c : Char) : Bool :=
  c = ' ' || c = '\t' || c = '\n' || c = '\r' || c.toNat = 12 || c.toNat = 11

def dropLeadingWs : List Char → List Char
  | [] => []
  | c :: cs => if jsTrimCh c then dropLeadingWs cs else c :: cs

/-- Model of `s.trim()`. -/
def trimJS (s : String) : String :=
  ⟨(dropLeadingWs (dropLeadingWs s.data.reverse).reverse)⟩

/-- One pass of `raw.replace(/```json|```/g, '')`: at each position the
alternation tries the longer fence first, exactly like the regex engine. -/
def stripRun : Nat → List Char → List Char
  | 0, cs => cs
  | Nat.succ fuel, cs =>
    match cs with
    | [] => []
    | c :: rest =>
      if startsWithChars "```json".data cs then stripRun fuel (cs.drop 7)
      else if startsWithChars "```".data cs then stripRun fuel (cs.drop 3)
      else c :: stripRun fuel rest

/-- Model of `raw.replace(/```json|```/g, '')`. -/
def stripFences (s : String) : String := ⟨stripRun s.data.length s.data⟩

/-- Model of `aiText.replace(/```json|```|\x7b|\x7d/g, '')` from the unnamed
server revision: fences and every brace character are removed. -/
def stripRunB : Nat → List Char → List Char
  | 0, cs => cs
  | Nat.succ fuel, cs =>
    match cs with
    | [] => []
    | c :: rest =>
      if startsWithChars "```json".data cs then stripRunB fuel (cs.drop 7)
      else if startsWithChars "```".data cs then stripRunB fuel (cs.drop 3)
      else if c = '{' || c = '}' then stripRunB fuel rest
      else c :: stripRunB fuel rest

def stripFencesBraces (s : String) : String := ⟨stripRunB s.data.length s.data⟩

/-- Split at the first occurrence of `ch`: returns the characters strictly
before it and the suffix starting with it. -/
def splitAtFirst (ch : Char) : List Char → Option (List Char × List Char)
  | [] => none
  | c :: cs =>
    if c = ch then some ([], c :: cs)
    else
      match splitAtFirst ch cs with
      | some (b, r) => some (c :: b, r)
      | none => none

/-- The prefix of `cs` ending at (and including) the last occurrence of `ch`. -/
def dropAfterLast (ch : Char) (cs : List Char) : Option (List Char) :=
  match splitAtFirst ch cs.reverse with
  | some (_, withCh) => some withCh.reverse
  | none => none

/-- Remove the first occurrence of `pat` (model of
`s.replace(pat, '')` with a plain-string pattern). -/
def replOnce : Nat → List Char → List Char → List Char
  | 0, _, cs => cs
  | Nat.succ fuel, pat, cs =>
    match cs with
    | [] => []
    | c :: rest =>
      if startsWithChars pat cs then cs.drop pat.length
      else c :: replOnce fuel pat rest

def replaceFirstEmpty (s pat : String) : String :=
  ⟨replOnce s.data.length pat.data s.data⟩

/- ### JSON object field operations (JS object semantics) -/

/-- JS property read on a plain object. -/
def lookupField : List (String × JSValue) → String → Option JSValue
  | [], _ => none
  | (k', v) :: rest, k => if k' = k then some v else lookupField rest k

/-- JS property assignment on a plain object: an existing key keeps its
insertion position and gets the new value; a fresh key is appended. -/
def setFieldList : List (String × JSValue) → String → JSValue → List (String × JSValue)
  | [], k, v => [(k, v)]
  | (k', v') :: rest, k, v =>
    if k' = k then (k, v) :: rest else (k', v') :: setFieldList rest k v

/-- JS property read `v.k` on an arbitrary value, for properties that no
primitive prototype defines: objects may have them, other non-null values
yield `undefined` (here `none`). -/
def getField (v : JSValue) (k : String) : Option JSValue :=
  match v with
  | .obj fs => lookupField fs k
  | _ => none

def setField (v : JSValue) (k : String) (w : JSValue) : JSValue :=
  match v with
  | .obj fs => .obj (setFieldList fs k w)
  | _ => v

/- ### JS truthiness -/

/-- Is any mantissa digit of the number lexeme nonzero?  (Exactly the
numbers whose value is nonzero; JSON admits no NaN literal.) -/
def mantNonzero : List Char → Bool
  | [] => false
  | c :: cs =>
    if c = 'e' || c = 'E' then false
    else if '1' ≤ c && c ≤ '9' then true
    else mantNonzero cs

/-- JS truthiness of a `JSON.parse` result. -/
def truthy : JSValue → Bool
  | .null => false
  | .bool b => b
  | .num l => mantNonzero l.data
  | .str s => if s = "" then false else true
  | .arr _ => true
  | .obj _ => true

/-- `a || b` where `a` is a possibly-undefined property read. -/
def jsOrV (a : Option JSValue) (b : JSValue) : JSValue :=
  match a with
  | some w => if truthy w then w else b
  | none => b

/- ### JSON parsing (model of JSON.parse) -/

def takeDigits : List Char → List Char × List Char
  | [] => ([], [])
  | c :: cs =>
    if isDigitCh c then
      let (d, r) := takeDigits cs
      (c :: d, r)
    else ([], c :: cs)

/-- Optional fraction part `.digits`. -/
def fracLex : List Char → Option (List Char × List Char)
  | '.' :: r =>
    match takeDigits r with
    | ([], _) => none
    | (d, r') => some ('.' :: d, r')
  | cs => some ([], cs)

/-- Optional exponent part `[eE][+-]?digits`. -/
def expLex : List Char → Option (List Char × List Char)
  | [] => some ([], [])
  | c :: r =>
    if c = 'e' || c = 'E' then
      let (sgn, r1) :=
        match r with
        | s :: r' => if s = '+' || s = '-' then ([s], r') else ([], s :: r')
        | [] => ([], [])
      match takeDigits r1 with
      | ([], _) => none
      | (d, r2) => some (c :: (sgn ++ d), r2)
    else some ([], c :: r)

/-- JSON number lexeme `-?(0|[1-9][0-9]*)(\.[0-9]+)?([eE][+-]?[0-9]+)?`. -/
def numLex (cs : List Char) : Option (List Char × List Char) :=
  let (neg, cs1) :=
    match cs with
    | '-' :: r => (['-'], r)
    | _ => ([], cs)
  match cs1 with
  | [] => none
  | c :: r =>
    if c = '0' then
      match fracLex r with
      | none => none
      | some (f, r1) =>
        match expLex r1 with
        | none => none
        | some (e, r2) => some (neg ++ c :: (f ++ e), r2)
    else if isDigitCh c then
      let (d, r0) := takeDigits r
      match fracLex r0 with
      | none => none
      | some (f, r1) =>
        match expLex r1 with
        | none => none
        | some (e, r2) => some (neg ++ c :: (d ++ (f ++ e)), r2)
    else none

/-- Body of a JSON string after the opening quote: returns decoded content
and the remainder after the closing quote. -/
def strBody : Nat → List Char → Option (List Char × List Char)
  | 0, _ => none
  | Nat.succ fuel, cs =>
    match cs with
    | [] => none
    | '"' :: r => some ([], r)
    | '\\' :: [] => none
    | '\\' :: e :: r =>
      let esc : Option (Char × List Char) :=
        match e, r with
        | '"', _ => some ('"', r)
        | '\\', _ => some ('\\', r)
        | '/', _ => some ('/', r)
        | 'b', _ => some (Char.ofNat 8, r)
        | 'f', _ => some (Char.ofNat 12, r)
        | 'n', _ => some ('\n', r)
        | 'r', _ => some ('\r', r)
        | 't', _ => some ('\t', r)
        | 'u', a :: b :: c2 :: d :: r' =>
          if isHexCh a && isHexCh b && isHexCh c2 && isHexCh d then
            some (Char.ofNat (((hexVal a * 16 + hexVal b) * 16 + hexVal c2) * 16 + hexVal d), r')
          else none
        | _, _ => none
      match esc with
      | some (ch, rest) =>
        match strBody fuel rest with
        | some (s, r2) => some (ch :: s, r2)
        | none => none
      | none => none
    | c :: r =>
      if c.toNat ≥ 32 then
        match strBody fuel r with
        | some (s, r2) => some (c :: s, r2)
        | none => none
      else none

mutual

/-- One JSON value, leading whitespace allowed. -/
def jsonVal : Nat → List Char → Option (JSValue × List Char)
  | 0, _ => none
  | Nat.succ fuel, cs =>
    match skipWs cs with
    | [] => none
    | 'n' :: rest =>
      match rest with
      | 'u' :: 'l' :: 'l' :: r => some (.null, r)
      | _ => none
    | 't' :: rest =>
      match rest with
      | 'r' :: 'u' :: 'e' :: r => some (.bool true, r)
      | _ => none
    | 'f' :: rest =>
      match rest with
      | 'a' :: 'l' :: 's' :: 'e' :: r => some (.bool false, r)
      | _ => none
    | '"' :: rest =>
      match strBody fuel rest with
      | some (s, r) => some (.str ⟨s⟩, r)
      | none => none
    | '{' :: rest => jsonObjRest fuel true rest []
    | '[' :: rest => jsonArrRest fuel true rest []
    | c :: rest =>
      if c = '-' || isDigitCh c then
        match numLex (c :: rest) with
        | some (l, r) => some (.num ⟨l⟩, r)
        | none => none
      else none

/-- Object members after `{` (when `first`) or after a `,`. -/
def jsonObjRest : Nat → Bool → List Char → List (String × JSValue) → Option (JSValue × List Char)
  | 0, _, _, _ => none
  | Nat.succ fuel, first, cs, acc =>
    match skipWs cs with
    | '}' :: r => if first then some (.obj acc, r) else none
    | '"' :: rest =>
      match strBody fuel rest with
      | some (k, r1) =>
        match skipWs r1 with
        | ':' :: r2 =>
          match jsonVal fuel r2 with
          | some (v, r3) =>
            let acc' := setFieldList acc ⟨k⟩ v
            match skipWs r3 with
            | ',' :: r4 => jsonObjRest fuel false r4 acc'
            | '}' :: r4 => some (.obj acc', r4)
            | _ => none
          | none => none
        | _ => none
      | none => none
    | _ => none

/-- Array elements after `[` (when `first`) or after a `,`. -/
def jsonArrRest : Nat → Bool → List Char → List JSValue → Option (JSValue × List Char)
  | 0, _, _, _ => none
  | Nat.succ fuel, first, cs, acc =>
    match skipWs cs with
    | ']' :: r => if first then some (.arr acc.reverse, r) else none
    | cs' =>
      match jsonVal fuel cs' with
      | some (v, r1) =>
        match skipWs r1 with
        | ',' :: r2 => jsonArrRest fuel false r2 (v :: acc)
        | ']' :: r2 => some (.arr (v :: acc).reverse, r2)
        | _ => none
      | none => none

end

/-- Model of `JSON.parse`: one top-level value, then only whitespace. -/
def jsonParse (s : String) : Option JSValue :=
  match jsonVal (3 * s.data.length + 9) s.data with
  | some (v, rest) => if skipWs rest = [] then some v else none
  | none => none

/- ### Output casing (model of String.prototype.toUpperCase, ASCII) -/

def upChar (c : Char) : Char :=
  if 'a' ≤ c && c ≤ 'z' then Char.ofNat (c.toNat - 32) else c

/-- Model of `s.toUpperCase()` (ASCII model). -/
def jsToUpper (s : String) : String := ⟨s.data.map upChar⟩

/- ### Conversation normalisation (Gemini `contents` construction) -/

inductive Role where
  | user
  | assistant
  | system
deriving DecidableEq

structure Message where
  role : Role
  content : String
deriving DecidableEq

/-- One entry of the Gemini `contents` array: the single element of its
`parts` is inlined as `text`. -/
structure Turn where
  role : String
  text : String
deriving DecidableEq

/-- `m.role === 'assistant' ? 'model' : 'user'`. -/
def mapRole (r : Role) : String := if r = .assistant then "model" else "user"

/-- One iteration of the `messages.forEach` loop, on the reversed turn
accumulator (the head is the most recently emitted turn). -/
def stepRev (sep : String) (textOf : Message → String) (acc : List Turn) (m : Message) : List Turn :=
  let role := mapRole m.role
  match acc with
  | t :: rest =>
    if t.role = role then { role := t.role, text := t.text ++ sep ++ textOf m } :: rest
    else ⟨role, textOf m⟩ :: t :: rest
  | [] => [⟨role, textOf m⟩]

def contentsCore (sep : String) (textOf : Message → String) (msgs : List Message) : List Turn :=
  (msgs.foldl (stepRev sep textOf) []).reverse

/-- The `contents` loop of `getGeminiResponse` in `backend/server.ts`:
merged texts are joined by a single newline, message content is used as-is. -/
def serverContents (msgs : List Message) : List Turn :=
  contentsCore "\n" (fun m => m.content) msgs

/-- The `contents` loop of `getGeminiResponse` in `src/ai.ts`: system
content is tagged, merged texts are joined by a blank line. -/
def aiContents (msgs : List Message) : List Turn :=
  contentsCore "\n\n"
    (fun m => if m.role = .system then "[SYSTEM CONTEXT]: " ++ m.content else m.content) msgs

/- ### Gemini model fallback loop (backend/server.ts getGeminiResponse) -/

/-- Outcome of one candidate `fetch` as the loop observes it. -/
inductive GemOutcome where
  | fail
  | notOk
  | resp (text : Option String)
deriving DecidableEq

/-- The extracted text of a candidate call when the loop accepts it:
`if (text) return text;` accepts exactly a present, non-empty string. -/
def succText (call : String → GemOutcome) (m : String) : Option String :=
  match call m with
  | .resp (some t) => if t = "" then none else some t
  | _ => none

def geminiModels : List String := ["gemini-1.5-flash", "gemini-1.5-pro", "gemini-pro"]

/-- The `for (const model of models)` loop of `getGeminiResponse` in
`backend/server.ts`, returning the list of candidates actually called and
the result.  A thrown fetch, a non-ok status and a missing or empty
extracted text all fall through to the next candidate. -/
def geminiLoop (call : String → GemOutcome) : List String → List String × Except String String
  | [] => ([], .error "Gemini Connection Error.")
  | m :: ms =>
    match call m with
    | .resp (some t) =>
      if t = "" then
        let (tr, r) := geminiLoop call ms
        (m :: tr, r)
      else ([m], .ok t)
    | _ =>
      let (tr, r) := geminiLoop call ms
      (m :: tr, r)

/- ### Response normalisation, src/ai.ts parseAIResponse -/

structure AIResponse where
  text : JSValue
  type : Option JSValue
  action : Option JSValue
  topic : Option JSValue
  intent : JSValue

/-- `parseAIResponse` of `src/ai.ts`.  The `catch` branch also receives the
`TypeError` raised by the property reads when the parsed value is `null`. -/
def parseAIResponse (raw : String) : AIResponse :=
  let clean := trimJS (stripFences raw)
  match jsonParse clean with
  | some parsed =>
    match parsed with
    | .null =>
      { text := .str raw, type := none, action := none, topic := none
        intent := .obj [("type", .str "conversation")] }
    | _ =>
      { text :=
          jsOrV (getField parsed "response")
            (jsOrV (getField parsed "text")
              (jsOrV (getField parsed "message")
                (match parsed with
                 | .str s => .str s
                 | _ => .str raw)))
        type := getField parsed "type"
        action := getField parsed "action"
        topic := getField parsed "topic"
        intent := jsOrV (getField parsed "intent") (.obj [("type", .str "conversation")]) }
  | none =>
    { text := .str raw, type := none, action := none, topic := none
      intent := .obj [("type", .str "conversation")] }

/- ### Response normalisation, unnamed server revision "SMART PARSER" -/

/-- The smart-parser block of `app.post('/api/chat')` in
src/unnamed/part_000, producing `finalText` as a JS value (a non-string
recognised field flows through unchanged, exactly as in the source). -/
def smartParse (aiText : String) : JSValue :=
  match splitAtFirst '{' aiText.data with
  | some (pre, rest) =>
    match dropAfterLast '}' rest with
    | some mat =>
      let potentialJson : String := ⟨mat⟩
      let cleanJson := trimJS (stripFences potentialJson)
      match jsonParse cleanJson with
      | some parsed =>
        jsOrV (getField parsed "text")
          (jsOrV (getField parsed "response")
            (jsOrV (getField parsed "message")
              (.str (trimJS (replaceFirstEmpty aiText potentialJson)))))
      | none =>
        let bb := trimJS ⟨pre⟩
        if bb = "" then
          if aiText = "" then .str "I AM SORRY, I ENCOUNTERED A PARSING ERROR."
          else .str aiText
        else .str bb
    | none => .str (trimJS (stripFencesBraces aiText))
  | none => .str (trimJS (stripFencesBraces aiText))

/- ### backend/server.ts /api/chat handler -/

/-- Parse block of the handler: `JSON.parse` of the fence-stripped,
trimmed raw response, falling back to the raw text on failure. -/
def serverParse (aiRawResponse : String) : JSValue :=
  match jsonParse (trimJS (stripFences aiRawResponse)) with
  | some v => v
  | none =>
    .obj [("text", .str aiRawResponse), ("intent", .obj [("type", .str "conversation")])]

/-- The `if (parsedResponse.text) parsedResponse.text = ...toUpperCase()`
step.  Reading `.text` on `null` and calling `toUpperCase` on a truthy
non-string both raise a `TypeError`, which the route's outer catch turns
into a 500 error. -/
def uppercaseStep : JSValue → Except String JSValue
  | .null => .error "TypeError: Cannot read properties of null (reading 'text')"
  | v =>
    match getField v "text" with
    | none => .ok v
    | some tv =>
      if truthy tv then
        match tv with
        | .str s => .ok (setField v "text" (.str (jsToUpper s)))
        | _ => .error "TypeError: parsedResponse.text.toUpperCase is not a function"
      else .ok v

structure ServerEnv where
  geminiKey : Option String
  groqKey : Option String
  openaiKey : Option String

/-- The provider collaborators and the persistence collaborator, abstracted:
`gemini` gives each candidate call's observed outcome, `groq`/`openai` give
the raw text or the thrown error, the save flags tell whether each
`pool.query` insert succeeds. -/
structure Oracles where
  gemini : String → GemOutcome
  groq : Except String String
  openai : Except String String
  saveUser : Bool
  saveAI : Bool

/-- A performed outbound provider call. -/
inductive NetCall where
  | gem (model : String)
  | groqCall
  | openaiCall
deriving DecidableEq

inductive ChatOut where
  | ok (body : JSValue)
  | badRequest (msg : String)
  | serverErr (msg : String)

/-- `provider === 'gemini' ? GEMINI_API_KEY : provider === 'groq' ?
GROQ_API_KEY : OPENAI_API_KEY`. -/
def selectApiKey (provider : Option String) (env : ServerEnv) : Option String :=
  if provider = some "gemini" then env.geminiKey
  else if provider = some "groq" then env.groqKey
  else env.openaiKey

/-- `if (!apiKey) throw ...`: a missing or empty environment variable. -/
def falsyKey : Option String → Bool
  | none => true
  | some s => if s = "" then true else false

/-- Dispatch to the selected provider adapter, recording outbound calls. -/
def dispatchProvider (provider : Option String) (o : Oracles) : List NetCall × Except String String :=
  if provider = some "gemini" then
    let (tr, r) := geminiLoop o.gemini geminiModels
    (tr.map NetCall.gem, r)
  else if provider = some "groq" then ([NetCall.groqCall], o.groq)
  else ([NetCall.openaiCall], o.openai)

/-- A failed `pool.query` is caught and only warned about. -/
def dbWarn (ok : Bool) : List String := if ok then [] else ["Database save failed"]

def cfgMsg (provider : Option String) : String :=
  "API Key for " ++ provider.getD "undefined" ++ " is not configured on the server."

/-- The `app.post('/api/chat')` handler of `backend/server.ts`: returns the
outbound network calls performed, the warnings logged, and the HTTP
outcome. -/
def serverChat (messages : List Message) (provider : Option String) (env : ServerEnv)
    (o : Oracles) : List NetCall × List String × ChatOut :=
  if messages = [] then ([], [], .badRequest "Messages are required.")
  else if falsyKey (selectApiKey provider env) then
    ([], dbWarn o.saveUser, .serverErr (cfgMsg provider))
  else
    match dispatchProvider provider o with
    | (net, .error msg) => (net, dbWarn o.saveUser, .serverErr msg)
    | (net, .ok raw) =>
      if raw = "" then
        (net, dbWarn o.saveUser, .serverErr "Received empty response from AI provider.")
      else
        match uppercaseStep (serverParse raw) with
        | .error m => (net, dbWarn o.saveUser, .serverErr m)
        | .ok body => (net, dbWarn o.saveUser ++ dbWarn o.saveAI, .ok body)

/-- The first field of `fs` under key `k` whose value is truthy in the JS
sense, as the `a || b` chains of the normalizers observe it. -/
def truthyField (fs : List (String × JSValue)) (k : String) : Option JSValue :=
  match lookupField fs k with
  | some w => if truthy w then some w else none
  | none => none

/- ## Lemmas -/

theorem charOfNat_toNat {n : Nat} (h : n < 55296) : (Char.ofNat n).toNat = n := by
  have hv : n.isValidChar := Or.inl h
  simp [Char.ofNat, hv, Char.ofNatAux, Char.toNat, UInt32.toNat, BitVec.toNat_ofNatLt]

theorem upChar_idem (c : Char) : upChar (upChar c) = upChar c := by
  unfold upChar
  by_cases h : ('a' ≤ c && c ≤ 'z') = true
  · rw [if_pos h]
    have hc : 97 ≤ c.toNat ∧ c.toNat ≤ 122 := by
      simp only [Bool.and_eq_true, decide_eq_true_eq] at h
      exact ⟨h.1, h.2⟩
    have hd : (Char.ofNat (c.toNat - 32)).toNat = c.toNat - 32 := charOfNat_toNat (by omega)
    have hno : ¬ (('a' ≤ Char.ofNat (c.toNat - 32) && Char.ofNat (c.toNat - 32) ≤ 'z') = true) := by
      simp only [Bool.and_eq_true, decide_eq_true_eq]
      rintro ⟨ha, _⟩
      have ha' : 97 ≤ (Char.ofNat (c.toNat - 32)).toNat := ha
      omega
    rw [if_neg hno]
  · rw [if_neg h, if_neg h]

theorem jsToUpper_idem (s : String) : jsToUpper (jsToUpper s) = jsToUpper s := by
  unfold jsToUpper
  apply congrArg String.mk
  show (s.data.map upChar).map upChar = s.data.map upChar
  rw [List.map_map]
  exact List.map_congr_left (fun c _ => upChar_idem c)

theorem jsToUpper_length (s : String) : (jsToUpper s).length = s.length := by
  unfold jsToUpper
  show (s.data.map upChar).length = s.data.length
  exact List.length_map _ _

/- ## Claims -/

/-- Claim C7: the output sanitizer (the `toUpperCase` step applied to the
reply text) is idempotent — `sanitize(sanitize(x)) = sanitize(x)` for every
string `x` — and content-preserving: it maps the string character by
character (casing only), so the length never changes (no truncation). -/
theorem aura_c7_sanitize_idem (x : String) :
    jsToUpper (jsToUpper x) = jsToUpper x ∧ (jsToUpper x).length = x.length :=
  ⟨jsToUpper_idem x, jsToUpper_length x⟩

theorem geminiLoop_cons_skip (call : String → GemOutcome) (m : String) (ms : List String)
    (h : succText call m = none) :
    geminiLoop call (m :: ms) =
      ((m :: (geminiLoop call ms).1), (geminiLoop call ms).2) := by
  unfold succText at h
  cases hgl : geminiLoop call ms with
  | mk tr r =>
    unfold geminiLoop
    rw [hgl]
    cases hc : call m with
    | resp t =>
      rw [hc] at h
      cases t with
      | some s =>
        have hs : s = "" := by
          by_cases hs : s = ""
          · exact hs
          · simp [hs] at h
        simp [hs]
      | none => simp
    | fail => simp
    | notOk => simp

theorem geminiLoop_cons_hit (call : String → GemOutcome) (m : String) (ms : List String)
    (t : String) (h : succText call m = some t) :
    geminiLoop call (m :: ms) = ([m], .ok t) := by
  unfold succText at h
  unfold geminiLoop
  cases hc : call m with
  | resp u =>
    rw [hc] at h
    cases u with
    | some s =>
      by_cases hs : s = ""
      · simp [hs] at h
      · simp only [if_neg hs, Option.some.injEq] at h
        subst h
        simp [hs]
    | none => simp at h
  | fail => rw [hc] at h; simp at h
  | notOk => rw [hc] at h; simp at h

theorem geminiLoop_all_skip (call : String → GemOutcome) (ms : List String)
    (h : ∀ m ∈ ms, succText call m = none) :
    geminiLoop call ms = (ms, .error "Gemini Connection Error.") := by
  induction ms with
  | nil => rfl
  | cons m rest ih =>
    rw [geminiLoop_cons_skip call m rest (h m (List.mem_cons_self m rest))]
    rw [ih (fun m' hm' => h m' (List.mem_cons_of_mem m hm'))]

/-- Claim C1: the Gemini fallback loop tries the candidate models strictly
in list order; a candidate whose call throws, returns a non-ok status, or
yields no (or empty) extracted text is skipped; the first candidate with
non-empty extracted text has exactly that text returned at once, the
remaining candidates never being called; and when every candidate fails the
loop fails with the connection error instead of returning text. -/
theorem aura_c1_fallback_order :
    (∀ (call : String → GemOutcome) (ms : List String),
        (∀ m ∈ ms, succText call m = none) →
        geminiLoop call ms = (ms, .error "Gemini Connection Error."))
    ∧ (∀ (call : String → GemOutcome) (pre : List String) (m : String) (post : List String)
        (t : String), (∀ m' ∈ pre, succText call m' = none) → succText call m = some t →
        geminiLoop call (pre ++ m :: post) = (pre ++ [m], .ok t)) := by
  constructor
  · exact geminiLoop_all_skip
  · intro call pre m post t hpre hm
    induction pre with
    | nil => simpa using geminiLoop_cons_hit call m post t hm
    | cons p rest ih =>
      have hp : succText call p = none := hpre p (List.mem_cons_self p rest)
      rw [List.cons_append, geminiLoop_cons_skip call p (rest ++ m :: post) hp,
        ih (fun m' hm' => hpre m' (List.mem_cons_of_mem p hm'))]
      simp

/-- Witness for C1 at the concrete fallback chain of `backend/server.ts`:
the first two candidates fail, the third succeeds with `"OK"`; exactly the
three candidates are called in order and `"OK"` is returned. -/
theorem aura_c1_fallback_order_witness :
    (∀ m' ∈ ["gemini-1.5-flash", "gemini-1.5-pro"],
        succText (fun m => if m = "gemini-pro" then .resp (some "OK") else .notOk) m' = none)
    ∧ succText (fun m => if m = "gemini-pro" then .resp (some "OK") else .notOk) "gemini-pro"
        = some "OK"
    ∧ geminiLoop (fun m => if m = "gemini-pro" then .resp (some "OK") else .notOk)
        (["gemini-1.5-flash", "gemini-1.5-pro"] ++ "gemini-pro" :: []) =
        (["gemini-1.5-flash", "gemini-1.5-pro"] ++ ["gemini-pro"], .ok "OK") :=
  ⟨by decide, by decide,
    aura_c1_fallback_order.2 _ ["gemini-1.5-flash", "gemini-1.5-pro"] "gemini-pro" [] "OK"
      (by decide) (by decide)⟩

theorem chain'_stepRev (sep : String) (textOf : Message → String) (acc : List Turn)
    (m : Message) (h : List.Chain' (fun a b => a.role ≠ b.role) acc) :
    List.Chain' (fun a b => a.role ≠ b.role) (stepRev sep textOf acc m) := by
  unfold stepRev
  cases acc with
  | nil => simp
  | cons t rest =>
    by_cases hr : t.role = mapRole m.role
    · simp only [if_pos hr]
      cases rest with
      | nil => simp
      | cons u rest' =>
        rw [List.chain'_cons] at h ⊢
        exact ⟨h.1, h.2⟩
    · simp only [if_neg hr]
      rw [List.chain'_cons]
      exact ⟨fun e => hr e.symm, h⟩

theorem chain'_foldRev (sep : String) (textOf : Message → String) :
    ∀ (msgs : List Message) (acc : List Turn),
      List.Chain' (fun a b => a.role ≠ b.role) acc →
      List.Chain' (fun a b => a.role ≠ b.role) (msgs.foldl (stepRev sep textOf) acc) := by
  intro msgs
  induction msgs with
  | nil => exact fun acc h => h
  | cons m rest ih =>
    intro acc h
    exact ih (stepRev sep textOf acc m) (chain'_stepRev sep textOf acc m h)

theorem chain'_contentsCore (sep : String) (textOf : Message → String) (msgs : List Message) :
    List.Chain' (fun a b => a.role ≠ b.role) (contentsCore sep textOf msgs) := by
  unfold contentsCore
  rw [List.chain'_reverse]
  exact (chain'_foldRev sep textOf msgs [] (by simp)).imp (fun a b hab => Ne.symm hab)

theorem stepRev_merge (sep : String) (textOf : Message → String) (t : Turn)
    (rest : List Turn) (m : Message) (h : t.role = mapRole m.role) :
    stepRev sep textOf (t :: rest) m =
      { role := t.role, text := t.text ++ sep ++ textOf m } :: rest := by
  unfold stepRev
  exact if_pos h

theorem stepRev_push (sep : String) (textOf : Message → String) (t : Turn)
    (rest : List Turn) (m : Message) (h : ¬ t.role = mapRole m.role) :
    stepRev sep textOf (t :: rest) m = ⟨mapRole m.role, textOf m⟩ :: t :: rest := by
  unfold stepRev
  exact if_neg h

theorem contentsCore_snoc_merge (sep : String) (textOf : Message → String)
    (msgs : List Message) (m : Message) (last : Turn)
    (hl : (contentsCore sep textOf msgs).getLast? = some last)
    (hr : mapRole m.role = last.role) :
    contentsCore sep textOf (msgs ++ [m]) =
      (contentsCore sep textOf msgs).dropLast ++ [⟨last.role, last.text ++ sep ++ textOf m⟩] := by
  unfold contentsCore at hl ⊢
  rw [List.foldl_append]
  have hhead : (msgs.foldl (stepRev sep textOf) []).head? = some last := by
    rwa [List.getLast?_reverse] at hl
  cases hrev : msgs.foldl (stepRev sep textOf) [] with
  | nil => rw [hrev] at hhead; cases hhead
  | cons t rest =>
    rw [hrev] at hhead
    have ht : t = last := Option.some.inj hhead
    subst ht
    rw [List.foldl_cons, List.foldl_nil, stepRev_merge sep textOf t rest m hr.symm,
      List.reverse_cons, List.reverse_cons, List.dropLast_concat]

theorem contentsCore_snoc_push (sep : String) (textOf : Message → String)
    (msgs : List Message) (m : Message)
    (h : ∀ last, (contentsCore sep textOf msgs).getLast? = some last →
        last.role ≠ mapRole m.role) :
    contentsCore sep textOf (msgs ++ [m]) =
      contentsCore sep textOf msgs ++ [⟨mapRole m.role, textOf m⟩] := by
  unfold contentsCore at h ⊢
  rw [List.foldl_append]
  cases hrev : msgs.foldl (stepRev sep textOf) [] with
  | nil => rfl
  | cons t rest =>
    have ht : t.role ≠ mapRole m.role := by
      apply h t
      rw [List.getLast?_reverse, hrev]
      rfl
    rw [List.foldl_cons, List.foldl_nil, stepRev_push sep textOf t rest m ht,
      List.reverse_cons, List.reverse_cons]

/-- Claim C2: for every non-empty message list the normalized Gemini turn
list never has two consecutive turns of the same mapped role (for both the
backend and the frontend reshaping loops); and in the backend loop a
message whose mapped role equals the role of the last emitted turn is
concatenated onto that turn joined by a newline instead of opening a new
turn, while a differing role opens a new turn. -/
theorem aura_c2_role_alternation :
    (∀ msgs : List Message, msgs ≠ [] →
        List.Chain' (fun a b => a.role ≠ b.role) (serverContents msgs) ∧
        List.Chain' (fun a b => a.role ≠ b.role) (aiContents msgs))
    ∧ (∀ (msgs : List Message) (m : Message) (last : Turn),
        (serverContents msgs).getLast? = some last → mapRole m.role = last.role →
        serverContents (msgs ++ [m]) =
          (serverContents msgs).dropLast ++ [⟨last.role, last.text ++ "\n" ++ m.content⟩])
    ∧ (∀ (msgs : List Message) (m : Message),
        (∀ last, (serverContents msgs).getLast? = some last → last.role ≠ mapRole m.role) →
        serverContents (msgs ++ [m]) = serverContents msgs ++ [⟨mapRole m.role, m.content⟩]) := by
  refine ⟨fun msgs _ => ⟨chain'_contentsCore _ _ msgs, chain'_contentsCore _ _ msgs⟩, ?_, ?_⟩
  · intro msgs m last hl hr
    exact contentsCore_snoc_merge "\n" (fun m => m.content) msgs m last hl hr
  · intro msgs m h
    exact contentsCore_snoc_push "\n" (fun m => m.content) msgs m h

/-- Witness for C2: a two-user-message conversation is merged into a single
user turn joined by a newline; alternation holds on a concrete
user/assistant/user list. -/
theorem aura_c2_role_alternation_witness :
    ([⟨Role.user, "hi"⟩, ⟨Role.assistant, "yo"⟩] ≠ ([] : List Message))
    ∧ List.Chain' (fun a b => a.role ≠ b.role)
        (serverContents [⟨Role.user, "hi"⟩, ⟨Role.assistant, "yo"⟩])
    ∧ (serverContents [⟨Role.user, "hi"⟩]).getLast? = some ⟨"user", "hi"⟩
    ∧ mapRole Role.user = "user"
    ∧ serverContents ([⟨Role.user, "hi"⟩] ++ [⟨Role.user, "there"⟩]) =
        (serverContents [⟨Role.user, "hi"⟩]).dropLast ++ [⟨"user", "hi" ++ "\n" ++ "there"⟩] :=
  ⟨by decide, (aura_c2_role_alternation.1 [⟨Role.user, "hi"⟩, ⟨Role.assistant, "yo"⟩]
      (by decide)).1, by rfl, by rfl,
    aura_c2_role_alternation.2.1 [⟨Role.user, "hi"⟩] ⟨Role.user, "there"⟩ ⟨"user", "hi"⟩
      (by rfl) (by rfl)⟩

/-- Claim C10: the provider selector validates nothing — every provider
value other than `'gemini'` and `'groq'`, unknown and missing values
included, is given the OpenAI credential and dispatched to the OpenAI
adapter rather than rejected. -/
theorem aura_c10_default_openai (provider : Option String) (env : ServerEnv) (o : Oracles)
    (h1 : provider ≠ some "gemini") (h2 : provider ≠ some "groq") :
    selectApiKey provider env = env.openaiKey ∧
    dispatchProvider provider o = ([NetCall.openaiCall], o.openai) := by
  constructor
  · unfold selectApiKey
    rw [if_neg h1, if_neg h2]
  · unfold dispatchProvider
    rw [if_neg h1, if_neg h2]

/-- Witness for C10 at the unknown provider string `"mistral"`. -/
theorem aura_c10_default_openai_witness :
    (some "mistral" ≠ some "gemini") ∧ (some "mistral" ≠ some "groq") ∧
    (selectApiKey (some "mistral") ⟨some "g", some "q", some "o"⟩ = some "o" ∧
      dispatchProvider (some "mistral")
        ⟨fun _ => .fail, .ok "x", .ok "y", true, true⟩ = ([NetCall.openaiCall], .ok "y")) :=
  ⟨by decide, by decide,
    aura_c10_default_openai (some "mistral") ⟨some "g", some "q", some "o"⟩
      ⟨fun _ => .fail, .ok "x", .ok "y", true, true⟩ (by decide) (by decide)⟩

/-- Claim C6: when the credential for the requested provider is absent the
chat handler fails with the configuration error and performs zero network
calls (the network trace is empty). -/
theorem aura_c6_no_network (msgs : List Message) (provider : Option String)
    (env : ServerEnv) (o : Oracles) (hm : msgs ≠ [])
    (hk : falsyKey (selectApiKey provider env) = true) :
    serverChat msgs provider env o = ([], dbWarn o.saveUser, .serverErr (cfgMsg provider)) := by
  unfold serverChat
  rw [if_neg hm, if_pos hk]

/-- Witness for C6: a gemini request with no gemini key configured. -/
theorem aura_c6_no_network_witness :
    ([⟨Role.user, "hi"⟩] ≠ ([] : List Message)) ∧
    falsyKey (selectApiKey (some "gemini") ⟨none, some "q", some "o"⟩) = true ∧
    serverChat [⟨Role.user, "hi"⟩] (some "gemini") ⟨none, some "q", some "o"⟩
        ⟨fun _ => .resp (some "text"), .ok "x", .ok "y", true, true⟩ =
      ([], [], .serverErr (cfgMsg (some "gemini"))) :=
  ⟨by decide, by decide,
    aura_c6_no_network [⟨Role.user, "hi"⟩] (some "gemini") ⟨none, some "q", some "o"⟩
      ⟨fun _ => .resp (some "text"), .ok "x", .ok "y", true, true⟩ (by decide) (by decide)⟩

/-- Claim C8: persistence failures are non-fatal and invisible to the
caller — for any outcome of the two database saves, the handler performs
the same network calls and returns the same reply or provider error as
when both saves succeed. -/
theorem aura_c8_persistence_nonfatal (msgs : List Message) (provider : Option String)
    (env : ServerEnv) (o : Oracles) (su sa : Bool) :
    (serverChat msgs provider env { o with saveUser := su, saveAI := sa }).1 =
      (serverChat msgs provider env o).1 ∧
    (serverChat msgs provider env { o with saveUser := su, saveAI := sa }).2.2 =
      (serverChat msgs provider env o).2.2 := by
  have hdp : dispatchProvider provider { o with saveUser := su, saveAI := sa } =
      dispatchProvider provider o := rfl
  unfold serverChat
  rw [hdp]
  by_cases hm : msgs = []
  · rw [if_pos hm, if_pos hm]
    exact ⟨rfl, rfl⟩
  · rw [if_neg hm, if_neg hm]
    by_cases hk : falsyKey (selectApiKey provider env) = true
    · rw [if_pos hk, if_pos hk]
      exact ⟨rfl, rfl⟩
    · rw [if_neg hk, if_neg hk]
      cases hd : dispatchProvider provider o with
      | mk net r =>
        cases r with
        | error msg => exact ⟨rfl, rfl⟩
        | ok raw =>
          dsimp only
          by_cases hraw : raw = ""
          · rw [if_pos hraw, if_pos hraw]
            exact ⟨rfl, rfl⟩
          · rw [if_neg hraw, if_neg hraw]
            cases hu : uppercaseStep (serverParse raw) with
            | error m => exact ⟨rfl, rfl⟩
            | ok body => exact ⟨rfl, rfl⟩

theorem lookupField_setFieldList (fs : List (String × JSValue)) (k : String) (w : JSValue) :
    lookupField (setFieldList fs k w) k = some w := by
  induction fs with
  | nil => simp [setFieldList, lookupField]
  | cons p rest ih =>
    obtain ⟨k', v'⟩ := p
    unfold setFieldList
    by_cases hk : k' = k
    · rw [if_pos hk]
      simp [lookupField]
    · rw [if_neg hk]
      unfold lookupField
      rw [if_neg hk]
      exact ih

theorem uppercaseStep_upper (v body : JSValue) (s : String)
    (h : uppercaseStep v = .ok body) (ht : getField body "text" = some (.str s)) :
    jsToUpper s = s := by
  cases v with
  | null => exact absurd h (by simp [uppercaseStep])
  | obj fs =>
    unfold uppercaseStep at h
    simp only [getField] at h
    cases hg : lookupField fs "text" with
    | none =>
      rw [hg] at h
      have hb : JSValue.obj fs = body := Except.ok.inj h
      rw [← hb] at ht
      simp only [getField] at ht
      rw [hg] at ht
      cases ht
    | some tv =>
      rw [hg] at h
      dsimp only at h
      by_cases htr : truthy tv = true
      · rw [if_pos htr] at h
        cases tv with
        | str s0 =>
          have hb : setField (.obj fs) "text" (.str (jsToUpper s0)) = body := Except.ok.inj h
          rw [← hb] at ht
          simp only [setField, getField] at ht
          rw [lookupField_setFieldList] at ht
          have hs : jsToUpper s0 = s := (JSValue.str.inj (Option.some.inj ht))
          rw [← hs, jsToUpper_idem]
        | null => exact absurd h (by simp)
        | bool b => exact absurd h (by simp)
        | num l => exact absurd h (by simp)
        | arr xs => exact absurd h (by simp)
        | obj fs2 => exact absurd h (by simp)
      · rw [if_neg htr] at h
        have hb : JSValue.obj fs = body := Except.ok.inj h
        rw [← hb] at ht
        simp only [getField] at ht
        rw [hg] at ht
        have htv : tv = .str s := Option.some.inj ht
        rw [htv] at htr
        have hs : s = "" := by
          by_cases hs : s = ""
          · exact hs
          · exact absurd (by simp [truthy, hs]) htr
        rw [hs]
        rfl
  | bool b =>
    unfold uppercaseStep at h
    simp only [getField] at h
    have hb : JSValue.bool b = body := Except.ok.inj h
    rw [← hb] at ht
    cases ht
  | num l =>
    unfold uppercaseStep at h
    simp only [getField] at h
    have hb : JSValue.num l = body := Except.ok.inj h
    rw [← hb] at ht
    cases ht
  | str s0 =>
    unfold uppercaseStep at h
    simp only [getField] at h
    have hb : JSValue.str s0 = body := Except.ok.inj h
    rw [← hb] at ht
    cases ht
  | arr xs =>
    unfold uppercaseStep at h
    simp only [getField] at h
    have hb : JSValue.arr xs = body := Except.ok.inj h
    rw [← hb] at ht
    cases ht

/-- Claim C9: every successful reply body of the backend chat handler has a
fully uppercased text: whenever the handler succeeds and the body's `text`
field is a string `s`, `s` is its own uppercase transform, whatever casing
the provider's raw output used. -/
theorem aura_c9_uppercase (msgs : List Message) (provider : Option String)
    (env : ServerEnv) (o : Oracles) (net : List NetCall) (warns : List String)
    (body : JSValue) (s : String)
    (h : serverChat msgs provider env o = (net, warns, .ok body))
    (ht : getField body "text" = some (.str s)) :
    jsToUpper s = s := by
  unfold serverChat at h
  by_cases hm : msgs = []
  · rw [if_pos hm] at h
    have h3 : ChatOut.badRequest "Messages are required." = ChatOut.ok body :=
      congrArg (fun p => p.2.2) h
    cases h3
  · rw [if_neg hm] at h
    by_cases hk : falsyKey (selectApiKey provider env) = true
    · rw [if_pos hk] at h
      have h3 : ChatOut.serverErr (cfgMsg provider) = ChatOut.ok body :=
        congrArg (fun p => p.2.2) h
      cases h3
    · rw [if_neg hk] at h
      cases hd : dispatchProvider provider o with
      | mk net' r =>
        rw [hd] at h
        cases r with
        | error msg =>
          have h3 : ChatOut.serverErr msg = ChatOut.ok body := congrArg (fun p => p.2.2) h
          cases h3
        | ok raw =>
          dsimp only at h
          by_cases hraw : raw = ""
          · rw [if_pos hraw] at h
            have h3 : ChatOut.serverErr "Received empty response from AI provider." =
                ChatOut.ok body := congrArg (fun p => p.2.2) h
            cases h3
          · rw [if_neg hraw] at h
            cases hu : uppercaseStep (serverParse raw) with
            | error m2 =>
              rw [hu] at h
              have h3 : ChatOut.serverErr m2 = ChatOut.ok body := congrArg (fun p => p.2.2) h
              cases h3
            | ok body' =>
              rw [hu] at h
              have h3 : ChatOut.ok body' = ChatOut.ok body := congrArg (fun p => p.2.2) h
              have hb : body' = body := ChatOut.ok.inj h3
              rw [hb] at hu
              exact uppercaseStep_upper (serverParse raw) body s hu ht

/-- Witness for C9: a lowercase raw provider reply `"hello"` fails JSON
parsing, falls back to `\x7btext: raw\x7d` and is uppercased to `"HELLO"`. -/
theorem aura_c9_uppercase_witness :
    serverChat [⟨Role.user, "hi"⟩] none ⟨none, none, some "k"⟩
        ⟨fun _ => .fail, .ok "x", .ok "hello", true, true⟩ =
      ([NetCall.openaiCall], [],
        .ok (.obj [("text", .str "HELLO"), ("intent", .obj [("type", .str "conversation")])])) ∧
    getField (.obj [("text", .str "HELLO"), ("intent", .obj [("type", .str "conversation")])])
        "text" = some (.str "HELLO") ∧
    jsToUpper "HELLO" = "HELLO" :=
  ⟨by rfl, by rfl,
    aura_c9_uppercase [⟨Role.user, "hi"⟩] none ⟨none, none, some "k"⟩
      ⟨fun _ => .fail, .ok "x", .ok "hello", true, true⟩ [NetCall.openaiCall] []
      (.obj [("text", .str "HELLO"), ("intent", .obj [("type", .str "conversation")])])
      "HELLO" (by rfl) (by rfl)⟩

theorem jsOrV_truthyField (fs : List (String × JSValue)) (k : String) (b r : JSValue)
    (h : truthyField fs k = some r) : jsOrV (lookupField fs k) b = r := by
  unfold truthyField at h
  cases hg : lookupField fs k with
  | none => rw [hg] at h; cases h
  | some w =>
    rw [hg] at h
    dsimp only at h
    unfold jsOrV
    dsimp only
    by_cases ht : truthy w = true
    · rw [if_pos ht] at h
      rw [if_pos ht]
      exact Option.some.inj h
    · rw [if_neg ht] at h
      cases h

theorem jsOrV_notTruthy (fs : List (String × JSValue)) (k : String) (b : JSValue)
    (h : truthyField fs k = none) : jsOrV (lookupField fs k) b = b := by
  unfold truthyField at h
  cases hg : lookupField fs k with
  | none => rfl
  | some w =>
    rw [hg] at h
    dsimp only at h
    unfold jsOrV
    dsimp only
    by_cases ht : truthy w = true
    · rw [if_pos ht] at h
      cases h
    · rw [if_neg ht]

/-- Claim C3 (amended): when the entire trimmed, fence-stripped raw string
parses as a single object, the ai.ts normalizer extracts the reply text
from the recognized fields in priority order `response`, then `text`, then
`message` — the first *truthy* (present and non-empty) one wins — and
carries through the side fields `type`, `action`, `topic` and (when
truthy) `intent` verbatim. -/
theorem aura_c3_field_priority (raw : String) (fs : List (String × JSValue))
    (h : jsonParse (trimJS (stripFences raw)) = some (.obj fs)) :
    (∀ r, truthyField fs "response" = some r → (parseAIResponse raw).text = r)
    ∧ (truthyField fs "response" = none →
        ∀ r, truthyField fs "text" = some r → (parseAIResponse raw).text = r)
    ∧ (truthyField fs "response" = none → truthyField fs "text" = none →
        ∀ r, truthyField fs "message" = some r → (parseAIResponse raw).text = r)
    ∧ (parseAIResponse raw).type = lookupField fs "type"
    ∧ (parseAIResponse raw).action = lookupField fs "action"
    ∧ (parseAIResponse raw).topic = lookupField fs "topic"
    ∧ (∀ w, truthyField fs "intent" = some w → (parseAIResponse raw).intent = w) := by
  have htext : (parseAIResponse raw).text =
      jsOrV (lookupField fs "response")
        (jsOrV (lookupField fs "text")
          (jsOrV (lookupField fs "message") (.str raw))) := by
    unfold parseAIResponse
    dsimp only
    rw [h]
    dsimp only [getField]
  have htype : (parseAIResponse raw).type = lookupField fs "type" := by
    unfold parseAIResponse
    dsimp only
    rw [h]
    dsimp only [getField]
  have haction : (parseAIResponse raw).action = lookupField fs "action" := by
    unfold parseAIResponse
    dsimp only
    rw [h]
    dsimp only [getField]
  have htopic : (parseAIResponse raw).topic = lookupField fs "topic" := by
    unfold parseAIResponse
    dsimp only
    rw [h]
    dsimp only [getField]
  have hintent : (parseAIResponse raw).intent =
      jsOrV (lookupField fs "intent") (.obj [("type", .str "conversation")]) := by
    unfold parseAIResponse
    dsimp only
    rw [h]
    dsimp only [getField]
  refine ⟨?_, ?_, ?_, htype, haction, htopic, ?_⟩
  · intro r hr
    rw [htext]
    exact jsOrV_truthyField fs "response" _ r hr
  · intro h0 r hr
    rw [htext, jsOrV_notTruthy fs "response" _ h0]
    exact jsOrV_truthyField fs "text" _ r hr
  · intro h0 h1 r hr
    rw [htext, jsOrV_notTruthy fs "response" _ h0, jsOrV_notTruthy fs "text" _ h1]
    exact jsOrV_truthyField fs "message" _ r hr
  · intro w hw
    rw [hintent]
    exact jsOrV_truthyField fs "intent" _ w hw

/-- Counterexample to C3 as stated: on the object
`{"text":"A","response":"B"}` the ai.ts normalizer returns `"B"` — the
`response` field wins over the `text` field, so the claimed priority order
`text`, `response`, `message` is wrong for this code. -/
theorem aura_c3_field_priority_counterexample :
    (parseAIResponse "\x7b\"text\":\"A\",\"response\":\"B\"\x7d").text = JSValue.str "B"
    ∧ (parseAIResponse "\x7b\"text\":\"A\",\"response\":\"B\"\x7d").text ≠ JSValue.str "A" :=
  ⟨rfl, fun e => absurd (JSValue.str.inj e) (by decide)⟩

/-- Witness for C3 (amended) at `{"response":"B","type":"live"}`. -/
theorem aura_c3_field_priority_witness :
    jsonParse (trimJS (stripFences "\x7b\"response\":\"B\",\"type\":\"live\"\x7d")) =
      some (.obj [("response", .str "B"), ("type", .str "live")])
    ∧ truthyField [("response", JSValue.str "B"), ("type", JSValue.str "live")] "response" =
        some (.str "B")
    ∧ (parseAIResponse "\x7b\"response\":\"B\",\"type\":\"live\"\x7d").text = .str "B"
    ∧ (parseAIResponse "\x7b\"response\":\"B\",\"type\":\"live\"\x7d").type =
        lookupField [("response", JSValue.str "B"), ("type", JSValue.str "live")] "type" :=
  ⟨rfl, rfl,
    (aura_c3_field_priority "\x7b\"response\":\"B\",\"type\":\"live\"\x7d"
        [("response", .str "B"), ("type", .str "live")] rfl).1 (.str "B") rfl,
    (aura_c3_field_priority "\x7b\"response\":\"B\",\"type\":\"live\"\x7d"
        [("response", .str "B"), ("type", .str "live")] rfl).2.2.2.1⟩

/-- Claim C4 (amended): when the raw input contains a brace-to-brace
substring (first `{` to last `}`) that fails to parse as JSON, the
part_000 normalizer does not throw and falls back to the trimmed prose
preceding the first `{` when that prose is non-empty, and to the whole
raw text otherwise; the backend/server.ts parse block falls back to the
whole raw text as the reply.  (An input with no closing brace, such as the
truncated `'{"text": "HI"'`, instead takes part_000's brace-stripping
path.) -/
theorem aura_c4_parse_fail_fallback :
    (∀ (raw : String) (pre rest mat : List Char),
        splitAtFirst '{' raw.data = some (pre, rest) →
        dropAfterLast '}' rest = some mat →
        jsonParse (trimJS (stripFences ⟨mat⟩)) = none →
        smartParse raw = .str (if trimJS ⟨pre⟩ = "" then raw else trimJS ⟨pre⟩))
    ∧ (∀ raw : String, jsonParse (trimJS (stripFences raw)) = none →
        serverParse raw =
          .obj [("text", .str raw), ("intent", .obj [("type", .str "conversation")])]) := by
  constructor
  · intro raw pre rest mat h1 h2 h3
    have hraw : raw ≠ "" := by
      intro e
      rw [e] at h1
      cases h1
    unfold smartParse
    rw [h1]
    dsimp only
    rw [h2]
    dsimp only
    rw [h3]
    dsimp only
    by_cases hb : trimJS ⟨pre⟩ = ""
    · rw [if_pos hb, if_pos hb, if_neg hraw]
    · rw [if_neg hb, if_neg hb]
  · intro raw h
    unfold serverParse
    rw [h]

/-- Counterexample to C4 as stated: on the truncated input
`'{"text": "HI"'` (which has no closing brace) part_000 strips the fence
and brace characters and keeps the rest, and backend/server.ts keeps the
whole raw text — neither falls back to the (empty) trimmed prose preceding
the first `{`. -/
theorem aura_c4_parse_fail_fallback_counterexample :
    smartParse "\x7b\"text\": \"HI\"" = .str "\"text\": \"HI\""
    ∧ smartParse "\x7b\"text\": \"HI\"" ≠ .str (trimJS "")
    ∧ serverParse "\x7b\"text\": \"HI\"" =
        .obj [("text", .str "\x7b\"text\": \"HI\""),
          ("intent", .obj [("type", .str "conversation")])]
    ∧ getField (serverParse "\x7b\"text\": \"HI\"") "text" ≠ some (.str (trimJS "")) :=
  ⟨rfl, fun e => absurd (JSValue.str.inj e) (by decide), rfl,
    fun e => absurd (JSValue.str.inj (Option.some.inj e)) (by decide)⟩

/-- Witness for C4 (amended) at `"note: {bad}"`: the brace block fails
to parse and the non-empty prose before the brace is returned trimmed. -/
theorem aura_c4_parse_fail_fallback_witness :
    splitAtFirst '{' "note: \x7bbad\x7d".data = some ("note: ".data, "\x7bbad\x7d".data)
    ∧ dropAfterLast '}' "\x7bbad\x7d".data = some "\x7bbad\x7d".data
    ∧ jsonParse (trimJS (stripFences (String.mk "\x7bbad\x7d".data))) = none
    ∧ smartParse "note: \x7bbad\x7d" =
        .str (if trimJS (String.mk "note: ".data) = "" then "note: \x7bbad\x7d"
          else trimJS (String.mk "note: ".data)) :=
  ⟨rfl, rfl, rfl,
    (aura_c4_parse_fail_fallback.1 "note: \x7bbad\x7d" "note: ".data "\x7bbad\x7d".data
      "\x7bbad\x7d".data rfl rfl rfl)⟩

/-- Claim C5 (amended): the ai.ts normalizer substitutes no placeholder —
when JSON parsing of the cleaned input fails it returns the raw input
itself as the reply text, so the empty input yields an *empty* text; the
part_000 smart parser likewise maps the empty input to the empty string,
its "could not parse" placeholder being unreachable there (the whole-raw
fallback precedes it). -/
theorem aura_c5_raw_fallback :
    (∀ raw : String, jsonParse (trimJS (stripFences raw)) = none →
        parseAIResponse raw =
          { text := .str raw, type := none, action := none, topic := none
            intent := .obj [("type", .str "conversation")] })
    ∧ smartParse "" = .str "" := by
  constructor
  · intro raw h
    unfold parseAIResponse
    dsimp only
    rw [h]
  · rfl

/-- Counterexample to C5 as stated: the empty input produces the empty
string as reply text, not a non-empty placeholder. -/
theorem aura_c5_raw_fallback_counterexample :
    (parseAIResponse "").text = JSValue.str ""
    ∧ ∀ s : String, (parseAIResponse "").text = JSValue.str s → s = "" :=
  ⟨rfl, fun _ e => (JSValue.str.inj e).symm⟩

/-- Witness for C5 (amended) at the non-JSON input `"hello"`. -/
theorem aura_c5_raw_fallback_witness :
    jsonParse (trimJS (stripFences "hello")) = none
    ∧ parseAIResponse "hello" =
        { text := .str "hello", type := none, action := none, topic := none
          intent := .obj [("type", .str "conversation")] } :=
  ⟨rfl, aura_c5_raw_fallback.1 "hello" rfl⟩

end Aura
